import Mathlib

/-!
Verification development for the SCST distributed evaluation pipeline
(`image_captioning/engine/inference.py` and `tools/test_net.py`).

The embedding models the Python code shallowly:
* machine floats become `ℚ` (only exact small arithmetic appears in the claims),
* Python exceptions become an `Except PyErr` result,
* the external collaborators (model forward pass, criterion, beam-search
  decode, vocabulary lookup, COCO scorer) are opaque; a `Batch` carries the
  values they produce for that batch, and the scorer is a function parameter,
* the distributed collectives (`torch.distributed`, `utils/comm.py`, which is
  not part of the sources) are modelled from the spec in a global view: a
  function of the list of every rank's local value, indexed by rank order.
-/

namespace SCST

/-- Python exceptions that the modelled code can raise. -/
inductive PyErr where
  | typeError
  | zeroDivisionError
  | indexError
  | valueError
  | attributeError
  deriving DecidableEq, Repr

/-- A Python scalar that can appear as a dict key or value in this program:
`cocoids` entries are ints, captions and dict keys are strings. -/
inductive PyScalar where
  | pInt (n : Int)
  | pStr (s : String)
  deriving DecidableEq, Repr

/-- A Python dict with scalar keys and values, in insertion order. -/
abbrev PyDict := List (PyScalar × PyScalar)

/-- `d[k] = v` in Python: replace the value in place if the key is present,
otherwise append the new pair at the end (insertion order is preserved). -/
def pyDictSet : PyDict → PyScalar → PyScalar → PyDict
  | [], k, v => [(k, v)]
  | (k', v') :: rest, k, v =>
      if k' = k then (k', v) :: rest else (k', v') :: pyDictSet rest k v

/-- The value of the per-batch loss as it flows through the Python code:
`loss.item()` and float arithmetic give a plain Python float, while
`torch.distributed.reduce` demands a tensor. -/
inductive LossVal where
  | pyfloat (q : ℚ)
  | tensor (q : ℚ)
  deriving DecidableEq, Repr

/-- A prediction entry, `entry = {'image_id': cocoids[k], 'caption': sent}`
(`inference.py` line 45). -/
structure Entry where
  image_id : Nat
  caption : String
  deriving DecidableEq, Repr

/-- The Python dict object built for an `Entry`: its keys are, in insertion
order, `'image_id'` and then `'caption'`. -/
def entryToPyDict (e : Entry) : PyDict :=
  [(PyScalar.pStr ("image_id"), PyScalar.pInt e.image_id),
   (PyScalar.pStr ("caption"), PyScalar.pStr e.caption)]

/-- One batch from the data loader, together with the values the external
collaborators produce for it:
* `cocoids` — `data['cocoids']`, one item identifier per example;
* `loss` — `criterion(model(...), captions[:, 1:], cap_lens+1).item()`,
  the per-batch loss scalar from the scoring forward pass;
* `sents` — `decode_sequence(vocab, model.decode_search(...))`, one decoded
  caption string per decoded example. -/
structure Batch where
  cocoids : List Nat
  loss : ℚ
  sents : List String
  deriving DecidableEq, Repr

/-- Events recording which collaborator calls the shard-evaluation loop issues
for the batch at index `i`. -/
inductive EvalEv where
  | forward (i : Nat)
  | criterion (i : Nat)
  | decodeSearch (i : Nat)
  | decodeSeq (i : Nat)
  deriving DecidableEq, Repr

/-- Accumulator state of the loop in `compute_on_dataset`
(`val_loss_sum`, `val_loss_count`, `predictions`, the key set of `done_ids`,
plus the trace of collaborator calls made so far). -/
structure CDState where
  sum : ℚ := 0
  count : Nat := 0
  preds : List Entry := []
  done : List Nat := []
  trace : List EvalEv := []
  deriving DecidableEq, Repr

/-- The initial accumulator of `compute_on_dataset`. -/
def initState : CDState := {}

/-- The inner loop `for k, sent in enumerate(sents): ... cocoids[k] ...`:
walks `sents` and `cocoids` in lockstep; `cocoids[k]` raises `IndexError`
when `sents` is longer than `cocoids`; an already-seen id is skipped
(`if cocoids[k] not in done_ids`), an unseen one records `done_ids[id] = 0`
and appends the entry. -/
def innerLoop : List String → List Nat → List Entry → List Nat →
    Except PyErr (List Entry × List Nat)
  | [], _, preds, done => .ok (preds, done)
  | _ :: _, [], _, _ => .error .indexError
  | s :: ss, id :: ids, preds, done =>
      if id ∈ done then innerLoop ss ids preds done
      else innerLoop ss ids (preds ++ [⟨id, s⟩]) (done ++ [id])

/-- The batch loop of `compute_on_dataset`, starting at batch index `i`.
Each iteration runs the scoring forward pass and criterion, counts the batch
into the running loss (`val_loss_count += 1; val_loss_sum += val_loss`),
runs the beam-search decode and the token-to-string conversion, and then the
dedup/append inner loop.  Returns the final state and, when the inner loop
raised, the exception. -/
def runLoop : List Batch → Nat → CDState → CDState × Option PyErr
  | [], _, st => (st, none)
  | b :: bs, i, st =>
      let st1 : CDState :=
        { st with
          sum := st.sum + b.loss
          count := st.count + 1
          trace := st.trace ++
            [EvalEv.forward i, EvalEv.criterion i,
             EvalEv.decodeSearch i, EvalEv.decodeSeq i] }
      match innerLoop b.sents b.cocoids st1.preds st1.done with
      | .error e => (st1, some e)
      | .ok (p, d) => runLoop bs (i + 1) { st1 with preds := p, done := d }

/-- `compute_on_dataset`: runs the batch loop and then returns
`predictions, val_loss_sum / val_loss_count`.  The division is Python float
division, which raises `ZeroDivisionError` when the shard yielded zero
batches.  The second component is the trace of collaborator calls. -/
def compute_on_dataset (batches : List Batch) :
    Except PyErr (List Entry × LossVal) × List EvalEv :=
  let r := runLoop batches 0 initState
  match r.2 with
  | some e => (.error e, r.1.trace)
  | none =>
      if r.1.count = 0 then (.error .zeroDivisionError, r.1.trace)
      else (.ok (r.1.preds, .pyfloat (r.1.sum / (r.1.count : ℚ))), r.1.trace)

/-- The sequence of `(itemId, caption)` observations the shard-evaluation
loop makes: for each batch, the decoded examples paired with their ids. -/
def obsOf : List Batch → List (Nat × String)
  | [] => []
  | b :: bs => b.cocoids.zip b.sents ++ obsOf bs

/-- Pure first-occurrence deduplication over observations (spec §4.3): keep
an observation only if its id is not in `seen`, extending `seen` as we go. -/
def dedupFirst (seen : List Nat) : List (Nat × String) → List Entry
  | [] => []
  | (id, s) :: rest =>
      if id ∈ seen then dedupFirst seen rest
      else ⟨id, s⟩ :: dedupFirst (id :: seen) rest

/-- The ids of a sequence, retaining only the first occurrence of each id not
already in `seen`, in order of first appearance. -/
def firstOccAux (seen : List Nat) : List Nat → List Nat
  | [] => []
  | x :: xs =>
      if x ∈ seen then firstOccAux seen xs
      else x :: firstOccAux (x :: seen) xs

/-- The collaborator-call trace produced for `n` batches starting at index
`i`: every batch runs forward pass, criterion, beam-search decode and
token-to-string conversion, in that order. -/
def batchTrace : Nat → Nat → List EvalEv
  | _, 0 => []
  | i, n + 1 =>
      [EvalEv.forward i, EvalEv.criterion i,
       EvalEv.decodeSearch i, EvalEv.decodeSeq i] ++ batchTrace (i + 1) n

/-- The local type check `torch.distributed.reduce` performs on its `tensor`
argument: a plain Python float is rejected with a type error before any
communication happens. -/
def asTensor : LossVal → Except PyErr ℚ
  | .tensor q => .ok q
  | .pyfloat _ => .error .typeError

/-- Checks every rank's argument to the collective; the reduction can only
proceed when every local loss is a tensor. -/
def asTensors : List LossVal → Except PyErr (List ℚ)
  | [] => .ok []
  | l :: ls => do
      let q ← asTensor l
      let qs ← asTensors ls
      .ok (q :: qs)

/-- `reduce_loss`, in global view: `locals` holds every rank's `loss`
argument, in rank order, so `get_world_size()` (from the absent
`utils/comm.py`; modelled from the spec as the number of cooperating
processes) is `locals.length`.  With fewer than two processes the loss is
returned unchanged.  Otherwise `dist.reduce(loss, dst=0)` type-checks each
rank's argument and sums all tensors into rank 0's buffer, and rank 0 then
divides its buffer by the world size in place; the non-root buffers are
implementation-defined and the code returns them as they are. -/
def reduce_loss (locals : List LossVal) : Except PyErr (List LossVal) :=
  if locals.length < 2 then .ok locals
  else do
    let vals ← asTensors locals
    .ok (LossVal.tensor ((vals.foldl (· + ·) 0) / (locals.length : ℚ)) ::
      locals.drop 1)

/-- `is_main_process()` (from the absent `utils/comm.py`).  Modelled from the
spec: rank 0 is the designated root. -/
def is_main_process (rank : Nat) : Bool := rank == 0

/-- Unpacking `key, value = item` where `item` is a Python dict: iterating a
dict yields its keys in insertion order, and the unpack demands exactly two
of them, raising otherwise. -/
def pyUnpackPair (item : PyDict) : Except PyErr (PyScalar × PyScalar) :=
  match item.map Prod.fst with
  | [k, v] => .ok (k, v)
  | _ => .error .valueError

/-- `predictions.update(p)` where `p` is a list of dicts rather than a dict:
Python treats the argument as an iterable of key/value pairs, unpacking each
element dict into its two keys. -/
def pyDictUpdateItems (d : PyDict) (items : List PyDict) : Except PyErr PyDict :=
  items.foldlM (fun d it => (pyUnpackPair it).map (fun kv => pyDictSet d kv.1 kv.2)) d

/-- `_accumulate_predictions_from_multiple_gpus`, in global view:
`predictions_per_gpu` holds every rank's local prediction list, in rank
order.  `all_gather` (from the absent `utils/comm.py`; modelled from the
spec: the root receives the rank-ordered sequence of every process's value)
hands that list to the merge loop; a non-root process returns `None`.  The
root merges with `predictions = {}` then `predictions.update(p)` for each
gathered `p` — each `p` being a list of entry dicts. -/
def accumulate_predictions_from_multiple_gpus (rank : Nat)
    (predictions_per_gpu : List (List Entry)) : Except PyErr (Option PyDict) :=
  let all_predictions := predictions_per_gpu
  if is_main_process rank then
    (all_predictions.foldlM
      (fun d p => pyDictUpdateItems d (p.map entryToPyDict)) []).map some
  else .ok none

/-- A metric table, `coco_eval`'s result: a mapping from metric name to
score. -/
abbrev Metrics := List (String × ℚ)

/-- Outcome of running a piece of Python code: a returned value, a raised
exception, or an indefinite block at a collective call (spec §5,
CollectiveStall). -/
inductive Outcome (α : Type) where
  | ret (v : α)
  | raise (e : PyErr)
  | stall
  deriving DecidableEq, Repr

/-- What `inference` returns: loss, predictions and metrics, each `None` on
a non-root process. -/
abbrev InfRet := Option LossVal × Option PyDict × Option Metrics

/-- Milestone events of one process's pass through `inference`. -/
inductive InfEv where
  | evalDone
  | reduceDone
  | barrierDone
  | gatherDone
  | scoreDone
  deriving DecidableEq, Repr

/-- Runs `compute_on_dataset` on every rank's shard; `some` of the per-rank
results when every rank's local evaluation succeeds, `none` when some rank
raised (and so never reaches the subsequent collective calls). -/
def computeAll : List (List Batch) → Option (List (List Entry × LossVal))
  | [] => some []
  | s :: ss =>
      match (compute_on_dataset s).1 with
      | .error _ => none
      | .ok r => (computeAll ss).map (r :: ·)

/-- The tail of `inference` after the loss reduction, for the process
`rank`: `synchronize()` (the barrier; modelled from the spec, a no-op for a
single process and completed once every process reaches it), then the gather
and merge of predictions, then `if not is_main_process(): return None, None,
None`, and finally, on the root only, `coco_eval` (the external scorer
collaborator) on the merged predictions. -/
def afterReduce (shards : List (List Batch)) (scorer : PyDict → Metrics)
    (rank : Nat) (lossReduced : LossVal) (tr : List InfEv) :
    Outcome InfRet × List InfEv :=
  let tr := tr ++ [InfEv.barrierDone]
  match computeAll shards with
  | none => (.stall, tr)
  | some rs =>
      match accumulate_predictions_from_multiple_gpus rank (rs.map Prod.fst) with
      | .error e => (.raise e, tr)
      | .ok pd =>
          let tr := tr ++ [InfEv.gatherDone]
          if is_main_process rank then
            (.ret (some lossReduced, pd, some (scorer (pd.getD []))),
             tr ++ [InfEv.scoreDone])
          else (.ret (none, none, none), tr)

/-- `inference`, for the process `rank` of a run whose per-rank shards are
`shards` (so `get_world_size()` is `shards.length`): local shard evaluation,
then `reduce_loss` — which for a world size of at least two type-checks the
local loss before any communication and otherwise needs every rank's loss —
then barrier, gather and root-only scoring via `afterReduce`. -/
def inference (shards : List (List Batch)) (scorer : PyDict → Metrics)
    (rank : Nat) : Outcome InfRet × List InfEv :=
  match (compute_on_dataset (shards.getD rank [])).1 with
  | .error e => (.raise e, [])
  | .ok (_, loss) =>
      if shards.length < 2 then
        afterReduce shards scorer rank loss [InfEv.evalDone, InfEv.reduceDone]
      else
        match loss with
        | .pyfloat _ => (.raise .typeError, [InfEv.evalDone])
        | .tensor _ =>
            match computeAll shards with
            | none => (.stall, [InfEv.evalDone])
            | some rs =>
                match reduce_loss (rs.map Prod.snd) with
                | .error e => (.raise e, [InfEv.evalDone])
                | .ok reduced =>
                    afterReduce shards scorer rank (reduced.getD rank loss)
                      [InfEv.evalDone, InfEv.reduceDone]

/-- The canonical order of `inference`'s steps on one process: local
evaluation, loss reduction, barrier, gather, and — on the root only —
scoring. -/
def canonicalInfTrace (rank : Nat) : List InfEv :=
  [InfEv.evalDone, InfEv.reduceDone, InfEv.barrierDone, InfEv.gatherDone] ++
    (if is_main_process rank then [InfEv.scoreDone] else [])

/-- Observable actions of the driver `test` after `inference` returns. -/
inductive TestEv where
  | jsonDump (preds : Option PyDict)
  | logMetric (name : String) (score : ℚ)
  deriving DecidableEq, Repr

/-- The code of `test` (`tools/test_net.py`) after the `inference` call,
given the three results: it unconditionally serializes `predictions` with
`json.dump` (`None` serializes as `null`), then iterates `scores.items()` —
an attribute error when `scores` is `None` — and, with `--verbose`, iterates
`predictions` reading `pred['image_id']`: on the root `predictions` is the
merged dict, so the iteration yields its keys, which are strings, and
indexing a string with `'image_id'` is a type error (as is iterating
`None`). -/
def testPost (_loss : Option LossVal) (preds : Option PyDict)
    (scores : Option Metrics) (verbose : Bool) : Outcome Unit × List TestEv :=
  let tr : List TestEv := [TestEv.jsonDump preds]
  match scores with
  | none => (.raise .attributeError, tr)
  | some sc =>
      let tr := tr ++ sc.map (fun m => TestEv.logMetric m.1 m.2)
      if verbose then
        match preds with
        | none => (.raise .typeError, tr)
        | some [] => (.ret (), tr)
        | some (_ :: _) => (.raise .typeError, tr)
      else (.ret (), tr)

/-- The driver `test` for the process `rank`: calls `inference` and, if it
returns, runs the post-processing above; an exception or stall in
`inference` propagates. -/
def test (shards : List (List Batch)) (scorer : PyDict → Metrics)
    (verbose : Bool) (rank : Nat) : Outcome Unit × List TestEv :=
  match inference shards scorer rank with
  | (.ret (loss, preds, scores), _) => testPost loss preds scores verbose
  | (.raise e, _) => (.raise e, [])
  | (.stall, _) => (.stall, [])

/-- A one-example batch used as a concrete input in several theorems. -/
def bEx : Batch := { cocoids := [5], loss := 1, sents := ["a house"] }

/-- A two-process run, one single-example batch per shard. -/
def sh2 : List (List Batch) := [[bEx], [bEx]]

/-- A concrete scorer collaborator. -/
def scorer0 : PyDict → Metrics := fun _ => []

/-- Two batches whose item ids are `[7, 7]` and `[9]`: item 7 repeats. -/
def cbEx : List Batch :=
  [{ cocoids := [7, 7], loss := 1, sents := ["a boy", "a second boy"] },
   { cocoids := [9], loss := 2, sents := ["a girl"] }]

/-- Three one-example batches with per-batch losses `2`, `4` and `6`. -/
def cb4 : List Batch :=
  [{ cocoids := [1], loss := 2, sents := ["u"] },
   { cocoids := [2], loss := 4, sents := ["v"] },
   { cocoids := [3], loss := 6, sents := ["w"] }]

/-- Two batches carrying the same single item id `7`: the second batch
consists entirely of an already-seen id. -/
def cb9 : List Batch :=
  [{ cocoids := [7], loss := 2, sents := ["p"] },
   { cocoids := [7], loss := 4, sents := ["q"] }]

/-! ### Properties of the deduplicating shard-evaluation loop -/

lemma dedupFirst_congr (s₁ s₂ : List Nat) (h : ∀ x, x ∈ s₁ ↔ x ∈ s₂) :
    ∀ o, dedupFirst s₁ o = dedupFirst s₂ o
  | [] => rfl
  | (id, s) :: rest => by
      by_cases hid : id ∈ s₁
      · simp only [dedupFirst, if_pos hid, if_pos ((h id).1 hid)]
        exact dedupFirst_congr s₁ s₂ h rest
      · simp only [dedupFirst, if_neg hid, if_neg (fun hx => hid ((h id).2 hx))]
        exact congrArg _ (dedupFirst_congr (id :: s₁) (id :: s₂) (fun x => by simp [h x]) rest)

lemma innerLoop_ok (sents : List String) (ids : List Nat) (preds : List Entry)
    (done : List Nat) (h : sents.length ≤ ids.length) :
    innerLoop sents ids preds done =
      .ok (preds ++ dedupFirst done (ids.zip sents),
           done ++ (dedupFirst done (ids.zip sents)).map Entry.image_id) := by
  induction sents generalizing ids preds done with
  | nil => simp [innerLoop, dedupFirst]
  | cons s ss ih =>
      cases ids with
      | nil => simp at h
      | cons id ids =>
          rw [show (id :: ids).zip (s :: ss) = (id, s) :: ids.zip ss from rfl]
          simp only [innerLoop, dedupFirst, List.map_cons]
          by_cases hid : id ∈ done
          · rw [if_pos hid, if_pos hid]
            exact ih ids preds done (by simpa using h)
          · rw [if_neg hid, if_neg hid,
              ih ids (preds ++ [Entry.mk id s]) (done ++ [id]) (by simpa using h),
              dedupFirst_congr (done ++ [id]) (id :: done)
                (fun x => by simp [or_comm]) (ids.zip ss)]
            simp

lemma dedupFirst_append (seen : List Nat) (o₁ o₂ : List (Nat × String)) :
    dedupFirst seen (o₁ ++ o₂) =
      dedupFirst seen o₁ ++
        dedupFirst (seen ++ (dedupFirst seen o₁).map Entry.image_id) o₂ := by
  induction o₁ generalizing seen with
  | nil => simp [dedupFirst]
  | cons p rest ih =>
      obtain ⟨id, s⟩ := p
      by_cases hid : id ∈ seen
      · simp only [List.cons_append, dedupFirst, if_pos hid, List.append_eq]
        exact ih seen
      · simp only [List.cons_append, dedupFirst, if_neg hid, List.map_cons,
          List.append_eq]
        rw [ih (id :: seen),
          dedupFirst_congr
            (id :: seen ++ (dedupFirst (id :: seen) rest).map Entry.image_id)
            (seen ++ id :: (dedupFirst (id :: seen) rest).map Entry.image_id)
            (fun x => by simp; tauto) o₂]

lemma runLoop_eq (batches : List Batch)
    (h : ∀ b ∈ batches, b.sents.length ≤ b.cocoids.length) :
    ∀ (i : Nat) (st : CDState),
    runLoop batches i st =
      ({ sum := st.sum + (batches.map Batch.loss).sum,
         count := st.count + batches.length,
         preds := st.preds ++ dedupFirst st.done (obsOf batches),
         done := st.done ++ (dedupFirst st.done (obsOf batches)).map Entry.image_id,
         trace := st.trace ++ batchTrace i batches.length }, none) := by
  induction batches with
  | nil => intro i st; simp [runLoop, obsOf, dedupFirst, batchTrace]
  | cons b bs ih =>
      intro i st
      simp only [runLoop, innerLoop_ok _ _ _ _ (h b (by simp)),
        ih (fun x hx => h x (by simp [hx])) (i + 1)]
      simp only [obsOf, dedupFirst_append, List.map_cons, List.map_append,
        List.sum_cons, List.length_cons, batchTrace]
      refine Prod.ext ?_ rfl
      simp only [CDState.mk.injEq]
      refine ⟨by ring, by omega, by simp [List.append_assoc],
        by simp [List.append_assoc], by simp [List.append_assoc, batchTrace]⟩

lemma compute_on_dataset_ok (batches : List Batch)
    (hwf : ∀ b ∈ batches, b.sents.length ≤ b.cocoids.length) (hne : batches ≠ []) :
    compute_on_dataset batches =
      (.ok (dedupFirst [] (obsOf batches),
            .pyfloat ((batches.map Batch.loss).sum / (batches.length : ℚ))),
       batchTrace 0 batches.length) := by
  have hlen : batches.length ≠ 0 := by simpa using hne
  simp only [compute_on_dataset, runLoop_eq batches hwf 0 initState]
  simp [initState, hlen]

lemma compute_loss_pyfloat (s : List Batch) (p : List Entry) (l : LossVal)
    (h : (compute_on_dataset s).1 = .ok (p, l)) : ∃ q, l = LossVal.pyfloat q := by
  rcases h2 : (runLoop s 0 initState).2 with _ | e
  · simp only [compute_on_dataset, h2] at h
    by_cases hc : (runLoop s 0 initState).1.count = 0
    · simp [hc] at h
    · simp only [hc, if_false] at h
      exact ⟨_, ((Prod.mk.injEq _ _ _ _).mp (Except.ok.inj h)).2.symm⟩
  · simp [compute_on_dataset, h2] at h

lemma dedupFirst_map_image_id (o : List (Nat × String)) :
    ∀ seen, (dedupFirst seen o).map Entry.image_id = firstOccAux seen (o.map Prod.fst) := by
  induction o with
  | nil => intro seen; rfl
  | cons p rest ih =>
      intro seen
      obtain ⟨id, s⟩ := p
      by_cases hid : id ∈ seen <;>
        simp [dedupFirst, firstOccAux, hid, ih]

lemma firstOccAux_spec (l : List Nat) :
    ∀ seen, (∀ x ∈ firstOccAux seen l, x ∉ seen) ∧ (firstOccAux seen l).Nodup := by
  induction l with
  | nil => intro seen; simp [firstOccAux]
  | cons x xs ih =>
      intro seen
      by_cases hx : x ∈ seen
      · simp only [firstOccAux, if_pos hx]
        exact ih seen
      · simp only [firstOccAux, if_neg hx]
        constructor
        · intro y hy hys
          rcases List.mem_cons.mp hy with rfl | hy'
          · exact hx hys
          · exact (ih (x :: seen)).1 y hy' (List.mem_cons_of_mem x hys)
        · refine List.nodup_cons.mpr ⟨fun hmem => ?_, (ih (x :: seen)).2⟩
          exact (ih (x :: seen)).1 x hmem (List.mem_cons_self x seen)

lemma dedupFirst_find? (o : List (Nat × String)) :
    ∀ (seen : List Nat) (id : Nat), id ∉ seen →
    (dedupFirst seen o).find? (fun e => e.image_id == id) =
      (o.find? (fun p => p.1 == id)).map (fun p => (⟨p.1, p.2⟩ : Entry)) := by
  induction o with
  | nil => intro seen id _; rfl
  | cons p rest ih =>
      intro seen id hid
      obtain ⟨i, s⟩ := p
      by_cases hiseen : i ∈ seen
      · have hne : (i == id) = false := by
          refine beq_eq_false_iff_ne.mpr fun hii => ?_
          exact hid (hii ▸ hiseen)
        simp only [dedupFirst, if_pos hiseen, List.find?_cons, hne]
        exact ih seen id hid
      · by_cases hii : i = id
        · subst hii
          simp [dedupFirst, if_neg hiseen, List.find?_cons]
        · have hne : (i == id) = false := beq_eq_false_iff_ne.mpr hii
          simp only [dedupFirst, if_neg hiseen, List.find?_cons, hne]
          refine ih (i :: seen) id ?_
          simp only [List.mem_cons]
          exact fun hc => hc.elim (fun h => hii h.symm) hid

/-! ### Properties of the loss reduction -/

lemma asTensors_map_tensor (vals : List ℚ) :
    asTensors (vals.map LossVal.tensor) = .ok vals := by
  induction vals with
  | nil => rfl
  | cons v vs ih => simp [asTensors, asTensor, ih, Except.bind, bind]

lemma foldl_add_eq_sum (l : List ℚ) : ∀ q : ℚ, l.foldl (· + ·) q = q + l.sum := by
  induction l with
  | nil => intro q; simp
  | cons x xs ih => intro q; simp [ih (q + x)]; ring

lemma reduce_loss_all_pyfloat (locals : List LossVal) (h2 : 2 ≤ locals.length)
    (hf : ∀ l ∈ locals, ∃ q, l = LossVal.pyfloat q) :
    reduce_loss locals = .error .typeError := by
  cases locals with
  | nil => simp at h2
  | cons l ls =>
      obtain ⟨q, rfl⟩ := hf l (by simp)
      simp only [reduce_loss, if_neg (Nat.not_lt.mpr h2)]
      simp [asTensors, asTensor, Except.bind, bind]

/-! ### Properties of the orchestration in `inference` -/

lemma afterReduce_trace (shards : List (List Batch)) (scorer : PyDict → Metrics)
    (rank : Nat) (lr : LossVal) :
    (∃ t, (afterReduce shards scorer rank lr [InfEv.evalDone, InfEv.reduceDone]).2 ++ t =
        canonicalInfTrace rank) ∧
    (∀ v, (afterReduce shards scorer rank lr [InfEv.evalDone, InfEv.reduceDone]).1 = .ret v →
        (afterReduce shards scorer rank lr [InfEv.evalDone, InfEv.reduceDone]).2 =
          canonicalInfTrace rank) := by
  rcases hca : computeAll shards with _ | rs
  · refine ⟨⟨[InfEv.gatherDone] ++ (if is_main_process rank then [InfEv.scoreDone] else []),
      by simp [afterReduce, hca, canonicalInfTrace]⟩, fun v hv => ?_⟩
    simp [afterReduce, hca] at hv
  · rcases hacc : accumulate_predictions_from_multiple_gpus rank (rs.map Prod.fst)
      with e | pd
    · refine ⟨⟨[InfEv.gatherDone] ++ (if is_main_process rank then [InfEv.scoreDone] else []),
        by simp [afterReduce, hca, hacc, canonicalInfTrace]⟩, fun v hv => ?_⟩
      simp [afterReduce, hca, hacc] at hv
    · by_cases hm : is_main_process rank
      · exact ⟨⟨[], by simp [afterReduce, hca, hacc, hm, canonicalInfTrace]⟩,
          fun v _ => by simp [afterReduce, hca, hacc, hm, canonicalInfTrace]⟩
      · exact ⟨⟨[], by simp [afterReduce, hca, hacc, hm, canonicalInfTrace]⟩,
          fun v _ => by simp [afterReduce, hca, hacc, hm, canonicalInfTrace]⟩

lemma inference_nonroot_ne_ret (shards : List (List Batch)) (scorer : PyDict → Metrics)
    (rank : Nat) (h0 : rank ≠ 0) :
    ∀ v, (inference shards scorer rank).1 ≠ .ret v := by
  intro v
  rcases hc : (compute_on_dataset (shards.getD rank [])).1 with e | ⟨p, loss⟩
  · unfold inference
    rw [hc]
    simp
  · by_cases hws : shards.length < 2
    · have hget : shards.getD rank [] = [] := by
        apply List.getD_eq_default
        omega
      rw [hget] at hc
      have hcd : (compute_on_dataset ([] : List Batch)).1 = .error .zeroDivisionError := rfl
      rw [hcd] at hc
      exact Except.noConfusion hc
    · obtain ⟨q, rfl⟩ := compute_loss_pyfloat _ _ _ hc
      unfold inference
      rw [hc]
      simp [hws]

lemma test_nonroot_ne_ret (shards : List (List Batch)) (scorer : PyDict → Metrics)
    (vb : Bool) (rank : Nat) (h0 : rank ≠ 0) :
    ∀ v, (test shards scorer vb rank).1 ≠ .ret v := by
  intro v
  rcases hI : inference shards scorer rank with ⟨o, tr⟩
  cases o with
  | ret w =>
      have : (inference shards scorer rank).1 = .ret w := by rw [hI]
      exact absurd this (inference_nonroot_ne_ret shards scorer rank h0 w)
  | raise e => simp [test, hI]
  | stall => simp [test, hI]

/-! ### The claims -/

/-- C1: evaluating the root-side merge at the gathered prediction lists
rank 0 = `[{'image_id': 1, 'caption': "a cat"}]` and rank 1 =
`[{'image_id': 1, 'caption': "a dog"}, {'image_id': 2, 'caption': "a dog
running"}]`: because each per-process value is a list of two-key entry
dicts, `predictions.update(p)` unpacks every entry into its two keys, and
the merge collapses to the single pair `('image_id', 'caption')` — a
mapping that is not keyed by itemId and retains no caption, instead of the
claimed rank-0-precedence merge `{1: "a cat", 2: "a dog running"}`. -/
theorem c1_merge_garbles :
    accumulate_predictions_from_multiple_gpus 0
      [[⟨1, "a cat"⟩], [⟨1, "a dog"⟩, ⟨2, "a dog running"⟩]] =
      .ok (some [(PyScalar.pStr ("image_id"), PyScalar.pStr ("caption"))]) := rfl

/-- C2: with two or more processes, `reduce_loss` fails with a type error
whenever every rank's `loss` argument is a plain Python float (the local
tensor check of `dist.reduce` rejects it), and `compute_on_dataset` — whose
result `inference` passes to `reduce_loss` — only ever returns a plain
Python float loss, so the multi-process loss-reduction branch cannot
complete successfully. -/
theorem c2_reduce_loss_requires_tensor :
    (∀ locals : List LossVal, 2 ≤ locals.length →
      (∀ l ∈ locals, ∃ q, l = LossVal.pyfloat q) →
      reduce_loss locals = .error .typeError) ∧
    (∀ (s : List Batch) (p : List Entry) (l : LossVal),
      (compute_on_dataset s).1 = .ok (p, l) → ∃ q, l = LossVal.pyfloat q) :=
  ⟨reduce_loss_all_pyfloat, compute_loss_pyfloat⟩

/-- Witness for C2 at the concrete two-process input `[1.0, 2.0]`. -/
theorem c2_witness :
    reduce_loss [LossVal.pyfloat 1, LossVal.pyfloat 2] = .error .typeError :=
  c2_reduce_loss_requires_tensor.1 _ (by norm_num) (by
    intro l hl
    simp only [List.mem_cons, List.not_mem_nil, or_false] at hl
    rcases hl with rfl | rfl
    exacts [⟨1, rfl⟩, ⟨2, rfl⟩])

/-- C3: for every batch sequence (one decoded caption per example), the
prediction list `compute_on_dataset` returns is exactly the pure
first-occurrence deduplication of the observed `(itemId, caption)` pairs:
its ids are distinct (one entry per distinct itemId), they appear in order
of first appearance, and the entry found for an id is the id's first
observation — a later occurrence never overwrites it. -/
theorem c3_dedup_predictions (batches : List Batch)
    (hwf : ∀ b ∈ batches, b.sents.length = b.cocoids.length)
    (hne : batches ≠ []) :
    Except.map Prod.fst (compute_on_dataset batches).1 =
      .ok (dedupFirst [] (obsOf batches)) ∧
    ((dedupFirst [] (obsOf batches)).map Entry.image_id).Nodup ∧
    (dedupFirst [] (obsOf batches)).map Entry.image_id =
      firstOccAux [] ((obsOf batches).map Prod.fst) ∧
    ∀ id, (dedupFirst [] (obsOf batches)).find? (fun e => e.image_id == id) =
      ((obsOf batches).find? (fun p => p.1 == id)).map
        (fun p => (⟨p.1, p.2⟩ : Entry)) := by
  have hwf' : ∀ b ∈ batches, b.sents.length ≤ b.cocoids.length :=
    fun b hb => le_of_eq (hwf b hb)
  refine ⟨?_, ?_, ?_, ?_⟩
  · rw [compute_on_dataset_ok batches hwf' hne]
    rfl
  · rw [dedupFirst_map_image_id]
    exact (firstOccAux_spec _ []).2
  · exact dedupFirst_map_image_id _ []
  · intro id
    exact dedupFirst_find? (obsOf batches) [] id (by simp)

/-- Witness for C3 at item ids `[7, 7, 9]` across two batches. -/
theorem c3_witness :
    Except.map Prod.fst (compute_on_dataset cbEx).1 =
      .ok (dedupFirst [] (obsOf cbEx)) ∧
    (dedupFirst [] (obsOf cbEx)).find? (fun e => e.image_id == 7) =
      ((obsOf cbEx).find? (fun p => p.1 == 7)).map
        (fun p => (⟨p.1, p.2⟩ : Entry)) :=
  ⟨(c3_dedup_predictions cbEx (by decide) (by decide)).1,
   (c3_dedup_predictions cbEx (by decide) (by decide)).2.2.2 7⟩

/-- C4: for every non-empty batch sequence, the loss `compute_on_dataset`
returns is the sum of the per-batch loss scalars divided by the number of
batches — an unweighted mean over batches. -/
theorem c4_mean_loss (batches : List Batch)
    (hwf : ∀ b ∈ batches, b.sents.length = b.cocoids.length)
    (hne : batches ≠ []) :
    (compute_on_dataset batches).1 =
      .ok (dedupFirst [] (obsOf batches),
        .pyfloat ((batches.map Batch.loss).sum / (batches.length : ℚ))) := by
  have hwf' : ∀ b ∈ batches, b.sents.length ≤ b.cocoids.length :=
    fun b hb => le_of_eq (hwf b hb)
  rw [compute_on_dataset_ok batches hwf' hne]

/-- Witness for C4: per-batch losses `[2, 4, 6]` yield mean loss `4`. -/
theorem c4_witness :
    (compute_on_dataset cb4).1 =
      .ok (dedupFirst [] (obsOf cb4),
        .pyfloat ((cb4.map Batch.loss).sum / (cb4.length : ℚ))) ∧
    (cb4.map Batch.loss).sum / (cb4.length : ℚ) = 4 :=
  ⟨c4_mean_loss cb4 (by decide) (by decide), by norm_num [cb4]⟩

/-- C5: a shard of zero batches makes `compute_on_dataset` fail with the
division-by-zero error from `val_loss_sum / val_loss_count`, surfacing it
to the caller rather than returning any loss value. -/
theorem c5_empty_shard :
    compute_on_dataset ([] : List Batch) =
      (.error .zeroDivisionError, ([] : List EvalEv)) := rfl

/-- C6: `reduce_loss` returns its input unchanged for every input when the
world size is 1, and with two or more processes (on its tensor-valued
inputs) the root's result is the sum of all processes' local values divided
by the world size. -/
theorem c6_reduce_loss_mean :
    (∀ v : LossVal, reduce_loss [v] = .ok [v]) ∧
    (∀ vals : List ℚ, 2 ≤ vals.length →
      reduce_loss (vals.map LossVal.tensor) =
        .ok (LossVal.tensor (vals.sum / (vals.length : ℚ)) ::
          (vals.map LossVal.tensor).drop 1)) := by
  constructor
  · intro v
    simp [reduce_loss]
  · intro vals h2
    have h2' : ¬ (vals.length < 2) := by omega
    simp only [reduce_loss, List.length_map, if_neg h2', asTensors_map_tensor,
      Except.bind, bind, foldl_add_eq_sum, zero_add]

/-- Witness for C6: world size 1 returns `5.0` unchanged; world size 3 with
local values `[1.0, 2.0, 3.0]` yields `2.0` on the root. -/
theorem c6_witness :
    reduce_loss [LossVal.pyfloat 5] = .ok [LossVal.pyfloat 5] ∧
    reduce_loss [LossVal.tensor 1, LossVal.tensor 2, LossVal.tensor 3] =
      .ok [LossVal.tensor 2, LossVal.tensor 2, LossVal.tensor 3] := by
  refine ⟨c6_reduce_loss_mean.1 _, ?_⟩
  have h := c6_reduce_loss_mean.2 [1, 2, 3] (by norm_num)
  norm_num at h
  exact h

/-- C7: evaluation of `inference` on the non-root process rank 1 of a
two-process run: it raises the type error from `dist.reduce` on the plain
float loss right after local evaluation, so the `return None, None, None`
at the non-root return site is never reached (and the scoring step is never
invoked) — instead of returning null for all three results as claimed. -/
theorem c7_nonroot_raises :
    inference sh2 scorer0 1 = (.raise .typeError, [InfEv.evalDone]) := rfl

/-- C8: on every process, the trace of `inference` follows the canonical
order — local evaluation, then loss reduction, then barrier, then gather,
then root-only scoring — every trace is a prefix of that order (no
collective call is issued out of order), and a run that returns has
performed exactly the canonical sequence. -/
theorem c8_collective_order (shards : List (List Batch))
    (scorer : PyDict → Metrics) (rank : Nat) :
    (∃ t, (inference shards scorer rank).2 ++ t = canonicalInfTrace rank) ∧
    (∀ v, (inference shards scorer rank).1 = .ret v →
      (inference shards scorer rank).2 = canonicalInfTrace rank) := by
  rcases hc : (compute_on_dataset (shards.getD rank [])).1 with e | ⟨p, loss⟩
  · have hI : inference shards scorer rank = (.raise e, []) := by
      unfold inference
      rw [hc]
    rw [hI]
    exact ⟨⟨canonicalInfTrace rank, rfl⟩, fun v hv => by simp at hv⟩
  · by_cases hws : shards.length < 2
    · have hI : inference shards scorer rank =
          afterReduce shards scorer rank loss [InfEv.evalDone, InfEv.reduceDone] := by
        unfold inference
        rw [hc]
        simp [hws]
      rw [hI]
      exact afterReduce_trace shards scorer rank loss
    · obtain ⟨q, rfl⟩ := compute_loss_pyfloat _ _ _ hc
      have hI : inference shards scorer rank =
          (.raise .typeError, [InfEv.evalDone]) := by
        unfold inference
        rw [hc]
        simp [hws]
      rw [hI]
      refine ⟨⟨[InfEv.reduceDone, InfEv.barrierDone, InfEv.gatherDone] ++
        (if is_main_process rank then [InfEv.scoreDone] else []), ?_⟩,
        fun v hv => by simp at hv⟩
      simp [canonicalInfTrace]

/-- Witness for C8: the single-process root run completes and its trace is
exactly the canonical sequence ending in the scoring step. -/
theorem c8_witness : (inference [[bEx]] scorer0 0).2 = canonicalInfTrace 0 :=
  (c8_collective_order [[bEx]] scorer0 0).2
    (some (LossVal.pyfloat 1),
     some [(PyScalar.pStr ("image_id"), PyScalar.pStr ("caption"))], some [])
    (by norm_num [inference, afterReduce, compute_on_dataset, runLoop, innerLoop,
      initState, computeAll, accumulate_predictions_from_multiple_gpus,
      is_main_process, bEx, pyDictUpdateItems, pyUnpackPair, entryToPyDict,
      pyDictSet, scorer0, Except.map])

/-- C9: for every batch sequence, the shard-evaluation loop finishes its
per-batch work for each batch — the forward pass, criterion, beam-search
decode and token-to-string conversion all appear in the trace for every
batch index, the loss count equals the number of batches, and the loss sum
is the sum of every batch's loss — independently of item ids, so a batch
consisting entirely of already-seen ids still contributes its loss. -/
theorem c9_every_batch_runs (batches : List Batch)
    (hwf : ∀ b ∈ batches, b.sents.length = b.cocoids.length) :
    (runLoop batches 0 initState).2 = none ∧
    (runLoop batches 0 initState).1.count = batches.length ∧
    (runLoop batches 0 initState).1.sum = (batches.map Batch.loss).sum ∧
    (runLoop batches 0 initState).1.trace = batchTrace 0 batches.length := by
  have hwf' : ∀ b ∈ batches, b.sents.length ≤ b.cocoids.length :=
    fun b hb => le_of_eq (hwf b hb)
  rw [runLoop_eq batches hwf' 0 initState]
  simp [initState]

/-- Witness for C9 at two batches whose second batch repeats the already
seen id 7: both batches are counted and summed into the loss. -/
theorem c9_witness :
    (runLoop cb9 0 initState).2 = none ∧
    (runLoop cb9 0 initState).1.count = cb9.length ∧
    (runLoop cb9 0 initState).1.sum = (cb9.map Batch.loss).sum ∧
    (runLoop cb9 0 initState).1.trace = batchTrace 0 cb9.length :=
  c9_every_batch_runs cb9 (by decide)

/-- C10, counterexample: on the non-root rank 1 of a concrete two-process
run, `inference` does not hand `(None, None, None)` to `test` — it raises a
type error — and `test` fails with that type error, not with an attribute
error, after serializing nothing. -/
theorem c10_counterexample :
    (inference sh2 scorer0 1).1 ≠ .ret (none, none, none) ∧
    (test sh2 scorer0 false 1).1 = .raise .typeError ∧
    (test sh2 scorer0 false 1).2 = ([] : List TestEv) := by
  refine ⟨fun h => ?_, rfl, rfl⟩
  have h1 : (inference sh2 scorer0 1).1 = Outcome.raise PyErr.typeError := rfl
  rw [h1] at h
  exact Outcome.noConfusion h

/-- C10, amended: on every non-root process `test` never completes
successfully (inference raises at the loss reduction before returning its
nulls); and `test`'s post-inference code, given the null results that the
non-root return path would produce, serializes the null predictions and
then fails with an attribute error on `scores.items()`. -/
theorem c10_nonroot_test_fails :
    (∀ (shards : List (List Batch)) (scorer : PyDict → Metrics) (vb : Bool)
      (rank : Nat), rank ≠ 0 → ∀ v, (test shards scorer vb rank).1 ≠ .ret v) ∧
    (∀ vb, testPost none none none vb =
      (.raise .attributeError, [TestEv.jsonDump none])) :=
  ⟨test_nonroot_ne_ret, fun _ => rfl⟩

/-- Witness for C10's amended claim at the concrete non-root rank 1. -/
theorem c10_witness :
    (test sh2 scorer0 false 1).1 ≠ .ret () ∧
    testPost none none none false =
      (.raise .attributeError, [TestEv.jsonDump none]) :=
  ⟨c10_nonroot_test_fails.1 sh2 scorer0 false 1 (by decide) (),
   c10_nonroot_test_fails.2 false⟩

end SCST
